import Mathlib

/-!
# Verification of the routine-tracker streak / day-off engine

Shallow embedding of the habit tracker's core logic (`src/app.js`,
`src/unnamed/part_001`, `src/unnamed/part_002`).

Calendar model: JavaScript parses canonical `"YYYY-MM-DD"` strings as UTC
midnight, so subtracting two such `Date` values and dividing by 86 400 000 ms
yields the exact difference of their calendar day numbers, and
`setDate(d + i)` adds `i` calendar days.  We therefore represent a calendar
day by its day number `z : Nat` counted from 0000-03-01 (a shifted civil
epoch chosen so that all quantities stay non-negative), with `civilFromDays` /
`daysFromCivil` standard proleptic-Gregorian conversions.
-/

namespace RoutineTracker

/-- Gregorian (year, month, day) of day number `z` (days since 0000-03-01).
Cascade form: 400-year era, century of era, 4-year quad, year of quad. -/
def civilFromDays (z : Nat) : Nat × Nat × Nat :=
  let era := z / 146097
  let doe := z % 146097
  let c := doe / 36524 - doe / 146096
  let doc := doe - 36524 * c
  let q := doc / 1461
  let doq := doc - 1461 * q
  let t := doq / 365 - doq / 1460
  let doy := doq - 365 * t
  let yoe := 100 * c + 4 * q + t
  let mp := (5 * doy + 2) / 153
  let d := doy - (153 * mp + 2) / 5 + 1
  let m := if mp < 10 then mp + 3 else mp - 9
  (yoe + era * 400 + (if m ≤ 2 then 1 else 0), m, d)

/-- Day number (days since 0000-03-01) of a Gregorian date. -/
def daysFromCivil (y m d : Nat) : Nat :=
  let y' := if m ≤ 2 then y - 1 else y
  let era := y' / 400
  let yoe := y' % 400
  let doy := (153 * (if 2 < m then m - 3 else m + 9) + 2) / 5 + d - 1
  let doe := yoe * 365 + yoe / 4 - yoe / 100 + doy
  era * 146097 + doe

/-! ## Decimal strings -/

/-- ASCII digit character of `n < 10`. -/
def digitChar (n : Nat) : Char := Char.ofNat (48 + n)

/-- Fuel-driven digit expansion (structural recursion, so that the kernel
can evaluate it on concrete inputs). -/
def natCharsAux : Nat → Nat → List Char
  | 0, _ => []
  | fuel + 1, n =>
    if n < 10 then [digitChar n]
    else natCharsAux fuel (n / 10) ++ [digitChar (n % 10)]

/-- Decimal digit characters of `n`, most significant first (JS `String(n)`). -/
def natChars (n : Nat) : List Char :=
  if n = 0 then ['0'] else natCharsAux n n

/-- JS `String(n).padStart(2, "0")` as a character list. -/
def pad2 (n : Nat) : List Char := if n < 10 then ['0', digitChar n] else natChars n

/-- Numeric value of an ASCII digit character. -/
def charVal (c : Char) : Nat := c.toNat - 48

/-- JS `formatDate`: the canonical `"YYYY-MM-DD"` string of day number `z`. -/
def formatDate (z : Nat) : String :=
  ⟨natChars (civilFromDays z).1 ++
    '-' :: pad2 (civilFromDays z).2.1 ++ '-' :: pad2 (civilFromDays z).2.2⟩

/-- JS `getCurrentMonth`: the canonical `"YYYY-MM"` prefix of day number `z`. -/
def formatMonth (z : Nat) : String :=
  ⟨natChars (civilFromDays z).1 ++ '-' :: pad2 (civilFromDays z).2.1⟩

/-- Character-list recursion behind `startsWith` (structural, so the kernel
can evaluate it; core's byte-based version uses well-founded recursion). -/
def listLeads : List Char → List Char → Bool
  | [], _ => true
  | _ :: _, [] => false
  | c :: cs, d :: ds => c = d && listLeads cs ds

/-- JS `String.prototype.startsWith(pat)`. -/
def startsWith (s pat : String) : Bool := listLeads pat.data s.data

/-- Splits a character list at `'-'` separators (the JS `"…".split("-")` the
date parser conceptually performs). -/
def splitDash : List Char → List (List Char)
  | [] => [[]]
  | c :: cs =>
    if c = '-' then [] :: splitDash cs
    else
      match splitDash cs with
      | [] => [[c]]
      | p :: ps => (c :: p) :: ps

/-- Decimal value of a non-empty all-digit character list, `none` otherwise. -/
def parseNatChars (l : List Char) : Option Nat :=
  if l ≠ [] ∧ l.all Char.isDigit then
    some (l.foldl (fun a c => a * 10 + (c.toNat - 48)) 0)
  else none

/-- Shallow embedding of JS `new Date(s)` on date strings: the day number of
an ISO `"YYYY-MM-DD"` string, or `none` where JS yields `Invalid Date` (so
that subsequent arithmetic, `NaN` in JS, selects no streak branch).  JS
additionally validates the day against the exact month length; we accept
`1..31`, which differs only on garbage inputs no claim quantifies over. -/
def parseDate (s : String) : Option Nat :=
  match (splitDash s.data).map parseNatChars with
  | [some y, some m, some d] =>
    if 1 ≤ m ∧ m ≤ 12 ∧ 1 ≤ d ∧ d ≤ 31 ∧ (3 ≤ m ∨ 1 ≤ y) then
      some (daysFromCivil y m d)
    else none
  | _ => none

/-! ## Data model (`src/app.js`, §3 of the spec) -/

/-- A habit embedded in a routine. -/
structure Habit where
  title : String
  time : String
  streak : Nat
  lastCompletedDate : String
deriving DecidableEq, Repr

/-- A named routine owning an ordered list of habits. -/
structure Routine where
  id : String
  name : String
  habits : List Habit
deriving DecidableEq, Repr

/-- The `settings` record: monthly day-off quota and the ledger of
day-off date strings. -/
structure Settings where
  dayOffLimit : Nat
  dayOffRecords : List String
deriving DecidableEq, Repr

/-- One entry of the completion log. -/
structure Completion where
  routineId : String
  habitIndex : Nat
deriving DecidableEq, Repr

/-- The whole persisted store: `routines`, `settings` and the `completions`
map from date string to the day's completion list (absent key ≙ `[]`). -/
structure AppState where
  routines : List Routine
  settings : Settings
  completions : String → List Completion

/-! ## Day-Off Ledger (`src/app.js` lines 92–129, `part_002` 529–534)

The JS functions read the ambient stored settings and today's clock; the
embedding passes the settings record and today's day number explicitly. -/

/-- `isDayOff(dateStr)`. -/
def isDayOff (s : Settings) (dateStr : String) : Bool := s.dayOffRecords.contains dateStr

/-- `canTakeDayOff()`: today not recorded and the month's usage below quota. -/
def canTakeDayOff (s : Settings) (todayZ : Nat) : Bool :=
  if formatDate todayZ ∈ s.dayOffRecords then false
  else (s.dayOffRecords.filter (fun d => startsWith d (formatMonth todayZ))).length
        < s.dayOffLimit

/-- `takeDayOff()`: result flag and updated settings. -/
def takeDayOff (s : Settings) (todayZ : Nat) : Bool × Settings :=
  if formatDate todayZ ∈ s.dayOffRecords then (false, s)
  else (true, { s with dayOffRecords := s.dayOffRecords ++ [formatDate todayZ] })

/-- `undoDayOff()`: `indexOf`/`splice` removes the first occurrence of
today's date if present. -/
def undoDayOff (s : Settings) (todayZ : Nat) : Bool × Settings :=
  if formatDate todayZ ∈ s.dayOffRecords then
    (true, { s with dayOffRecords := s.dayOffRecords.erase (formatDate todayZ) })
  else (false, s)

/-- `purgeOldDayOffRecords()`: keep only records of the current month. -/
def purgeOldDayOffRecords (s : Settings) (todayZ : Nat) : Settings :=
  { s with dayOffRecords :=
      s.dayOffRecords.filter (fun d => startsWith d (formatMonth todayZ)) }

/-! ## Streak Engine (`src/app.js` lines 220–274, `part_002` 187–277) -/

/-- The `for (let i = 1; i < diffDays; i++)` loop of `completeHabit`:
`true` iff each of the `n` dates `lastz+1 … lastz+n` is in the ledger. -/
def allDaysOff (records : List String) (lastz n : Nat) : Bool :=
  (List.range n).all fun j => decide (formatDate (lastz + 1 + j) ∈ records)

/-- The streak update of `completeHabit` (lines 230–256): first-time,
consecutive-day, day-off-bridged gap, broken gap, or non-positive gap
(`diffDays` comparisons both false, streak untouched). -/
def newStreak (records : List String) (habit : Habit) (todayZ : Nat) : Nat :=
  if habit.lastCompletedDate = "" then 1
  else
    match parseDate habit.lastCompletedDate with
    | none => habit.streak
    | some lastz =>
      let diffDays : Int := (todayZ : Int) - (lastz : Int)
      if diffDays = 1 then habit.streak + 1
      else if 1 < diffDays then
        if allDaysOff records lastz (diffDays - 1).toNat then habit.streak + 1
        else 1
      else habit.streak

/-- Replace the first routine whose id matches (the one `find` aliases). -/
def updateFirstRoutine : List Routine → String → (Routine → Routine) → List Routine
  | [], _, _ => []
  | r :: rs, rid, f =>
    if r.id = rid then f r :: rs else r :: updateFirstRoutine rs rid f

/-- The completion-log append of `completeHabit` (lines 261–273):
deduplicated push of `{routineId, habitIndex}` under today's key. -/
def logCompletion (completions : String → List Completion) (todayStr rid : String)
    (idx : Nat) : String → List Completion :=
  let dayList := completions todayStr
  let dayList' :=
    if dayList.any (fun c => c.routineId = rid ∧ c.habitIndex = idx) then dayList
    else dayList ++ [{ routineId := rid, habitIndex := idx }]
  fun d => if d = todayStr then dayList' else completions d

/-- `completeHabit(routineId, habitIndex)`.  `Except.error` models the JS
`TypeError` thrown when `routine.habits[habitIndex]` is `undefined` and its
`lastCompletedDate` is read; the carried state is the store at the throw
point (nothing has been persisted yet). -/
def completeHabit (st : AppState) (todayZ : Nat) (rid : String) (idx : Nat) :
    Except AppState AppState :=
  match st.routines.find? (fun r => r.id = rid) with
  | none => .ok st
  | some routine =>
    match routine.habits[idx]? with
    | none => .error st
    | some habit =>
      let todayStr := formatDate todayZ
      if habit.lastCompletedDate = todayStr then .ok st
      else
        let habit' : Habit := { habit with
          streak := newStreak st.settings.dayOffRecords habit todayZ,
          lastCompletedDate := todayStr }
        { routines := updateFirstRoutine st.routines rid
            (fun r => { r with habits := r.habits.set idx habit' }),
          settings := st.settings,
          completions := logCompletion st.completions todayStr rid idx : AppState }
        |> .ok

/-- The completion-log removal of `uncompleteHabit` (filter under today's
key); in JS the write is skipped when the key is absent, which is
extensionally the same as filtering the empty default. -/
def removeCompletionLog (completions : String → List Completion) (todayStr rid : String)
    (idx : Nat) : String → List Completion :=
  fun d => if d = todayStr then
      (completions todayStr).filter (fun c => ¬ (c.routineId = rid ∧ c.habitIndex = idx))
    else completions d

/-- The one-step habit reversal of `uncompleteHabit`: clear the date,
decrement the streak floored at 0. -/
def revertHabit (h : Habit) : Habit :=
  { h with lastCompletedDate := "",
           streak := if 0 < h.streak then h.streak - 1 else 0 }

/-- `uncompleteHabit(routineId, habitIndex, sameDay)` (`part_002` 250–277).
With an out-of-range index the log removal has already been persisted when
`habit.lastCompletedDate` is read, so the `sameDay && …` test throws
(`Except.error`) after that removal — unless `sameDay` is `false`, whose
short-circuit skips the property read. -/
def uncompleteHabit (st : AppState) (todayZ : Nat) (rid : String) (idx : Nat)
    (sameDay : Bool) : Except AppState AppState :=
  match st.routines.find? (fun r => r.id = rid) with
  | none => .ok st
  | some routine =>
    let todayStr := formatDate todayZ
    let st₁ : AppState := { st with
      completions := removeCompletionLog st.completions todayStr rid idx }
    match routine.habits[idx]? with
    | none => if sameDay then .error st₁ else .ok st₁
    | some habit =>
      if sameDay ∧ habit.lastCompletedDate = todayStr then
        let routines' := updateFirstRoutine st₁.routines rid
          (fun r => { r with habits := r.habits.set idx (revertHabit habit) })
        .ok { st₁ with routines := routines' }
      else .ok st₁

/-- The habit a caller observes at `(routineId, habitIndex)`. -/
def getHabit (st : AppState) (rid : String) (idx : Nat) : Option Habit :=
  match st.routines.find? (fun r => r.id = rid) with
  | none => none
  | some r => r.habits[idx]?

/-- Observation of a call's outcome at one habit address: `none` when the
call raised, otherwise the habit visible afterwards. -/
def observeHabit (e : Except AppState AppState) (rid : String) (idx : Nat) :
    Option (Option Habit) :=
  match e with
  | .ok s => some (getHabit s rid idx)
  | .error _ => none

/-! ### Concrete fixtures for witnesses and counterexamples
Day numbers: 2025-01-08 ↦ 739564, 2025-01-09 ↦ 739565, 2025-01-10 ↦ 739566. -/

/-- A habit last completed 2025-01-08 with a 3-day streak. -/
def wHabit : Habit := { title := "Water", time := "07:00", streak := 3,
                        lastCompletedDate := "2025-01-08" }

/-- A routine holding just `wHabit`. -/
def wRoutine : Routine := { id := "r1", name := "Morning", habits := [wHabit] }

/-- Store with 2025-01-09 marked as day off. -/
def wState : AppState :=
  { routines := [wRoutine], settings := { dayOffLimit := 3, dayOffRecords := ["2025-01-09"] },
    completions := fun _ => [] }

/-- Store with an empty day-off ledger. -/
def wStateBare : AppState :=
  { routines := [wRoutine], settings := { dayOffLimit := 3, dayOffRecords := [] },
    completions := fun _ => [] }

/-- Store whose ledger also records today (2025-01-10). -/
def wStateToday : AppState :=
  { routines := [wRoutine],
    settings := { dayOffLimit := 3, dayOffRecords := ["2025-01-09", "2025-01-10"] },
    completions := fun _ => [] }

/-- A habit last completed 2025-01-10 with a 5-day streak. -/
def wHabitAhead : Habit := { title := "Water", time := "07:00", streak := 5,
                             lastCompletedDate := "2025-01-10" }

/-- Store holding `wHabitAhead`, for the backwards-clock and uncomplete cases. -/
def wStateAhead : AppState :=
  { routines := [{ id := "r1", name := "Morning", habits := [wHabitAhead] }],
    settings := { dayOffLimit := 3, dayOffRecords := [] },
    completions := fun _ => [] }

/-! ## Theorems -/

/-- Core arithmetic of the day-of-era cascade: month/day ranges and
reconstruction of the day of era. -/
theorem civil_cascade (doe c doc q doq t doy mp dd m : Nat)
    (hdoe : doe ≤ 146096)
    (hc : c = doe / 36524 - doe / 146096)
    (hdoc : doc = doe - 36524 * c)
    (hq : q = doc / 1461)
    (hdoq : doq = doc - 1461 * q)
    (ht : t = doq / 365 - doq / 1460)
    (hdoy : doy = doq - 365 * t)
    (hmp : mp = (5 * doy + 2) / 153)
    (hdd : dd = doy - (153 * mp + 2) / 5 + 1)
    (hm : m = if mp < 10 then mp + 3 else mp - 9) :
    1 ≤ m ∧ m ≤ 12 ∧ 1 ≤ dd ∧ dd ≤ 31 ∧ (m ≤ 2 ↔ 10 ≤ mp) ∧
    100 * c + 4 * q + t ≤ 399 ∧
    365 * (100 * c + 4 * q + t) + (100 * c + 4 * q + t) / 4 -
        (100 * c + 4 * q + t) / 100 +
      ((153 * (if 2 < m then m - 3 else m + 9) + 2) / 5 + dd - 1) = doe := by
  have F1 : doe = 36524 * c + doc ∧ c ≤ 3 ∧ doc ≤ 36524 := by omega
  have F2 : doc = 1461 * q + doq ∧ q ≤ 24 ∧ doq ≤ 1460 := by omega
  have F3 : doq = 365 * t + doy ∧ t ≤ 3 ∧ doy ≤ 365 := by omega
  have F4 : mp ≤ 11 ∧ (153 * mp + 2) / 5 ≤ doy ∧ 1 ≤ dd ∧ dd ≤ 31 ∧
      (153 * mp + 2) / 5 + dd - 1 = doy := by omega
  have F6 : (100 * c + 4 * q + t) / 4 = 25 * c + q ∧
      (100 * c + 4 * q + t) / 100 = c := by omega
  rcases Nat.lt_or_ge mp 10 with h10 | h10
  · rw [hm, if_pos h10]
    rw [if_pos (by omega : 2 < mp + 3)]
    omega
  · rw [hm, if_neg (by omega : ¬ mp < 10)]
    rw [if_neg (by omega : ¬ 2 < mp - 9)]
    omega

/-- The civil conversion produces a valid month/day and is inverted by
`daysFromCivil`. -/
theorem civilFromDays_spec (z : Nat) :
    1 ≤ (civilFromDays z).2.1 ∧ (civilFromDays z).2.1 ≤ 12 ∧
    1 ≤ (civilFromDays z).2.2 ∧ (civilFromDays z).2.2 ≤ 31 ∧
    daysFromCivil (civilFromDays z).1 (civilFromDays z).2.1 (civilFromDays z).2.2 = z := by
  have hz : z = 146097 * (z / 146097) + z % 146097 := by omega
  have hdoe : z % 146097 ≤ 146096 := by omega
  obtain ⟨h1, h2, h3, h4, h5, h6, h7⟩ :=
    civil_cascade (z % 146097) _ _ _ _ _ _ _ _ _ hdoe rfl rfl rfl rfl rfl rfl rfl rfl rfl
  unfold civilFromDays daysFromCivil
  dsimp only
  refine ⟨h1, h2, h3, h4, ?_⟩
  set doe := z % 146097 with hdoedef
  set c := doe / 36524 - doe / 146096 with hcdef
  set doc := doe - 36524 * c with hdocdef
  set q := doc / 1461 with hqdef
  set doq := doc - 1461 * q with hdoqdef
  set t := doq / 365 - doq / 1460 with htdef
  set doy := doq - 365 * t with hdoydef
  set mp := (5 * doy + 2) / 153 with hmpdef
  set dd := doy - (153 * mp + 2) / 5 + 1 with hdddef
  set m := if mp < 10 then mp + 3 else mp - 9 with hmdef
  set era := z / 146097 with heradef
  set yoe := 100 * c + 4 * q + t with hyoedef
  -- the year written by `civilFromDays` and the `y - 1` adjustment of
  -- `daysFromCivil` cancel: in both branches y' = yoe + era * 400
  have hy' : (if m ≤ 2 then yoe + era * 400 + (if m ≤ 2 then 1 else 0) - 1
      else yoe + era * 400 + (if m ≤ 2 then 1 else 0)) = yoe + era * 400 := by
    rcases le_or_lt m 2 with hm2 | hm2
    · rw [if_pos hm2, if_pos hm2]; omega
    · rw [if_neg (by omega), if_neg (by omega)]; omega
  rw [hy']
  have hdiv : (yoe + era * 400) / 400 = era ∧ (yoe + era * 400) % 400 = yoe := by
    constructor <;> omega
  rw [hdiv.1, hdiv.2]
  omega

theorem natCharsAux_eq_digits :
    ∀ fuel n, 0 < n → n ≤ fuel →
      natCharsAux fuel n = ((Nat.digits 10 n).map digitChar).reverse := by
  intro fuel
  induction fuel with
  | zero => intro n h1 h2; omega
  | succ fuel ih =>
    intro n h1 h2
    rw [natCharsAux]
    by_cases h10 : n < 10
    · rw [if_pos h10]
      rw [Nat.digits_def' (by norm_num : (1:Nat) < 10) h1]
      have : n / 10 = 0 := by omega
      rw [this, Nat.digits_zero]
      simp [Nat.mod_eq_of_lt h10]
    · rw [if_neg h10]
      rw [ih (n / 10) (by omega) (by omega)]
      rw [Nat.digits_def' (by norm_num : (1:Nat) < 10) h1]
      simp

/-- `natChars` in terms of `Nat.digits`, for reasoning. -/
theorem natChars_eq (n : Nat) :
    natChars n = if n = 0 then ['0'] else ((Nat.digits 10 n).map digitChar).reverse := by
  unfold natChars
  by_cases h : n = 0
  · rw [if_pos h, if_pos h]
  · rw [if_neg h, if_neg h, natCharsAux_eq_digits n n (by omega) le_rfl]

theorem charVal_digitChar : ∀ d, d < 10 → charVal (digitChar d) = d := by decide

theorem digitChar_inj : ∀ x, x < 10 → ∀ y, y < 10 → digitChar x = digitChar y → x = y := by
  decide

theorem map_charVal_digitChar (l : List Nat) (h : ∀ x ∈ l, x < 10) :
    (l.map digitChar).map charVal = l := by
  induction l with
  | nil => rfl
  | cons a t ih =>
    simp only [List.map_cons, List.cons.injEq]
    exact ⟨charVal_digitChar a (h a (by simp)), ih fun x hx => h x (by simp [hx])⟩

theorem natChars_inj {a b : Nat} (h : natChars a = natChars b) : a = b := by
  rw [natChars_eq, natChars_eq] at h
  by_cases ha : a = 0 <;> by_cases hb : b = 0
  · omega
  · rw [if_pos ha, if_neg hb] at h
    have h' : (Nat.digits 10 b).map digitChar = ['0'] := by
      have := congrArg List.reverse h
      simpa using this.symm
    rcases hd : Nat.digits 10 b with _ | ⟨x, t⟩
    · simp [hd] at h'
    · rcases t with _ | ⟨x2, t2⟩
      · simp [hd] at h'
        have hx : x < 10 := Nat.digits_lt_base (by norm_num) (by rw [hd]; simp)
        have hx0 : x = 0 := digitChar_inj x hx 0 (by norm_num) (by simpa using h')
        have h0 := Nat.ofDigits_digits 10 b
        rw [hd, hx0] at h0
        simp [Nat.ofDigits] at h0
        omega
      · simp [hd] at h'
  · rw [if_neg ha, if_pos hb] at h
    have h' : (Nat.digits 10 a).map digitChar = ['0'] := by
      have := congrArg List.reverse h
      simpa using this
    rcases hd : Nat.digits 10 a with _ | ⟨x, t⟩
    · simp [hd] at h'
    · rcases t with _ | ⟨x2, t2⟩
      · simp [hd] at h'
        have hx : x < 10 := Nat.digits_lt_base (by norm_num) (by rw [hd]; simp)
        have hx0 : x = 0 := digitChar_inj x hx 0 (by norm_num) (by simpa using h')
        have h0 := Nat.ofDigits_digits 10 a
        rw [hd, hx0] at h0
        simp [Nat.ofDigits] at h0
        omega
      · simp [hd] at h'
  · rw [if_neg ha, if_neg hb] at h
    have h' : (Nat.digits 10 a).map digitChar = (Nat.digits 10 b).map digitChar := by
      have := congrArg List.reverse h
      simpa using this
    have hda : ((Nat.digits 10 a).map digitChar).map charVal = Nat.digits 10 a :=
      map_charVal_digitChar _ fun x hx => Nat.digits_lt_base (by norm_num) hx
    have hdb : ((Nat.digits 10 b).map digitChar).map charVal = Nat.digits 10 b :=
      map_charVal_digitChar _ fun x hx => Nat.digits_lt_base (by norm_num) hx
    have hdig : Nat.digits 10 a = Nat.digits 10 b := by rw [← hda, ← hdb, h']
    calc a = Nat.ofDigits 10 (Nat.digits 10 a) := (Nat.ofDigits_digits 10 a).symm
      _ = Nat.ofDigits 10 (Nat.digits 10 b) := by rw [hdig]
      _ = b := Nat.ofDigits_digits 10 b

theorem pad2_eq (n : Nat) (h : n < 100) :
    pad2 n = [digitChar (n / 10), digitChar (n % 10)] := by
  unfold pad2
  rw [natChars_eq]
  by_cases h10 : n < 10
  · rw [if_pos h10]
    have h1 : n / 10 = 0 := by omega
    have h2 : n % 10 = n := by omega
    rw [h1, h2]
    rfl
  · rw [if_neg h10, if_neg (by omega : ¬ n = 0)]
    rw [Nat.digits_def' (by norm_num : (1:Nat) < 10) (by omega : 0 < n)]
    rw [Nat.digits_def' (by norm_num : (1:Nat) < 10) (by omega : 0 < n / 10)]
    have h1 : n / 10 / 10 = 0 := by omega
    have h2 : n / 10 % 10 = n / 10 := by omega
    rw [h1, h2]
    simp

/-- Distinct day numbers format to distinct date strings. -/
theorem formatDate_inj {z₁ z₂ : Nat} (h : formatDate z₁ = formatDate z₂) : z₁ = z₂ := by
  obtain ⟨hm1a, hm1b, hd1a, hd1b, hrt1⟩ := civilFromDays_spec z₁
  obtain ⟨hm2a, hm2b, hd2a, hd2b, hrt2⟩ := civilFromDays_spec z₂
  unfold formatDate at h
  rw [pad2_eq _ (by omega), pad2_eq _ (by omega),
      pad2_eq _ (by omega), pad2_eq _ (by omega)] at h
  have hl : natChars (civilFromDays z₁).1 ++
      ['-', digitChar ((civilFromDays z₁).2.1 / 10), digitChar ((civilFromDays z₁).2.1 % 10),
       '-', digitChar ((civilFromDays z₁).2.2 / 10), digitChar ((civilFromDays z₁).2.2 % 10)] =
      natChars (civilFromDays z₂).1 ++
      ['-', digitChar ((civilFromDays z₂).2.1 / 10), digitChar ((civilFromDays z₂).2.1 % 10),
       '-', digitChar ((civilFromDays z₂).2.2 / 10), digitChar ((civilFromDays z₂).2.2 % 10)] := by
    have := congrArg String.data h
    simpa using this
  obtain ⟨hy, hsuf⟩ := List.append_inj' hl rfl
  have hyeq : (civilFromDays z₁).1 = (civilFromDays z₂).1 := natChars_inj hy
  simp only [List.cons.injEq] at hsuf
  obtain ⟨-, hma, hmb, -, hda, hdb, -⟩ := hsuf
  have hm : (civilFromDays z₁).2.1 = (civilFromDays z₂).2.1 := by
    have e1 := digitChar_inj _ (by omega) _ (by omega) hma
    have e2 := digitChar_inj _ (by omega) _ (by omega) hmb
    omega
  have hd : (civilFromDays z₁).2.2 = (civilFromDays z₂).2.2 := by
    have e1 := digitChar_inj _ (by omega) _ (by omega) hda
    have e2 := digitChar_inj _ (by omega) _ (by omega) hdb
    omega
  rw [← hrt1, ← hrt2, hyeq, hm, hd]

/-! ## Helper lemmas -/

theorem find?_updateFirstRoutine (l : List Routine) (rid : String)
    (f : Routine → Routine) (hf : ∀ r, (f r).id = r.id) {r : Routine}
    (h : l.find? (fun r => r.id = rid) = some r) :
    (updateFirstRoutine l rid f).find? (fun r => r.id = rid) = some (f r) := by
  induction l with
  | nil => simp [List.find?] at h
  | cons a t ih =>
    simp only [updateFirstRoutine]
    by_cases ha : a.id = rid
    · rw [if_pos ha]
      rw [List.find?_cons_of_pos _ (by simp [ha])] at h
      injection h with h
      subst h
      exact List.find?_cons_of_pos _ (by simp [hf, ha])
    · rw [if_neg ha]
      rw [List.find?_cons_of_neg _ (by simp [ha])] at h
      rw [List.find?_cons_of_neg _ (by simp [ha])]
      exact ih h

theorem getHabit_some {st : AppState} {rid : String} {idx : Nat} {h : Habit}
    (hh : getHabit st rid idx = some h) :
    ∃ r, st.routines.find? (fun r => r.id = rid) = some r ∧
      r.habits[idx]? = some h ∧ idx < r.habits.length := by
  unfold getHabit at hh
  rcases hfind : st.routines.find? (fun r => r.id = rid) with _ | r
  · rw [hfind] at hh
    exact absurd hh (by simp)
  · rw [hfind] at hh
    dsimp only at hh
    refine ⟨r, hfind, hh, ?_⟩
    by_contra hlen
    have hnone : r.habits[idx]? = none :=
      List.getElem?_eq_none_iff.mpr (by omega)
    rw [hnone] at hh
    exact absurd hh (by simp)

/-- Successful `completeHabit` when the addressed habit exists and was not
already completed today: the resulting habit and the untouched settings. -/
theorem completeHabit_ok {st : AppState} {todayZ : Nat} {rid : String} {idx : Nat}
    {habit : Habit} (hhab : getHabit st rid idx = some habit)
    (hne : habit.lastCompletedDate ≠ formatDate todayZ) :
    ∃ st', completeHabit st todayZ rid idx = .ok st' ∧
      getHabit st' rid idx = some { habit with
        streak := newStreak st.settings.dayOffRecords habit todayZ,
        lastCompletedDate := formatDate todayZ } ∧
      st'.settings = st.settings := by
  obtain ⟨r, hfind, hget, hlen⟩ := getHabit_some hhab
  have hstep : completeHabit st todayZ rid idx = .ok
      { routines := updateFirstRoutine st.routines rid
          (fun r => { r with habits := r.habits.set idx { habit with
            streak := newStreak st.settings.dayOffRecords habit todayZ,
            lastCompletedDate := formatDate todayZ } }),
        settings := st.settings,
        completions := logCompletion st.completions (formatDate todayZ) rid idx } := by
    unfold completeHabit
    rw [hfind]
    dsimp only
    rw [hget]
    dsimp only
    rw [if_neg hne]
  refine ⟨_, hstep, ?_, rfl⟩
  unfold getHabit
  rw [find?_updateFirstRoutine st.routines rid
    (fun r => { r with habits := r.habits.set idx { habit with
      streak := newStreak st.settings.dayOffRecords habit todayZ,
      lastCompletedDate := formatDate todayZ } }) (fun _ => rfl) hfind]
  dsimp only
  exact List.getElem?_set_self hlen

/-- `completeHabit` early-returns unchanged when the habit was already
completed today. -/
theorem completeHabit_already {st : AppState} {todayZ : Nat} {rid : String} {idx : Nat}
    {habit : Habit} (hhab : getHabit st rid idx = some habit)
    (heq : habit.lastCompletedDate = formatDate todayZ) :
    completeHabit st todayZ rid idx = .ok st := by
  obtain ⟨r, hfind, hget, _⟩ := getHabit_some hhab
  unfold completeHabit
  rw [hfind]
  dsimp only
  rw [hget]
  dsimp only
  rw [if_pos heq]

/-! ## C3 — `takeDayOff` at the monthly quota -/

/-- Counterexample to C3 as stated: with `dayOffLimit = 3`, three records in
the current month (2025-01) and today (2025-01-10, day number 739566) not
recorded, `canTakeDayOff` is `false`, yet `takeDayOff` is not a no-op: it
returns `true` and appends today, growing the ledger to 4 entries. -/
theorem takeDayOff_at_quota_counterexample :
    canTakeDayOff ⟨3, ["2025-01-02", "2025-01-03", "2025-01-04"]⟩ 739566 = false ∧
    (takeDayOff ⟨3, ["2025-01-02", "2025-01-03", "2025-01-04"]⟩ 739566).1 = true ∧
    (takeDayOff ⟨3, ["2025-01-02", "2025-01-03", "2025-01-04"]⟩
        739566).2.dayOffRecords.length = 4 := by
  decide

/-- C3 amended: at the monthly quota with today unrecorded, `canTakeDayOff`
returns `false`, but `takeDayOff` itself does not consult the quota: it
returns `true` and appends today's date (the record count grows by one). -/
theorem takeDayOff_at_quota (s : Settings) (todayZ : Nat)
    (hquota : (s.dayOffRecords.filter
        (fun d => startsWith d (formatMonth todayZ))).length = s.dayOffLimit)
    (hnot : formatDate todayZ ∉ s.dayOffRecords) :
    canTakeDayOff s todayZ = false ∧
    (takeDayOff s todayZ).1 = true ∧
    (takeDayOff s todayZ).2.dayOffRecords = s.dayOffRecords ++ [formatDate todayZ] := by
  refine ⟨?_, ?_, ?_⟩
  · unfold canTakeDayOff
    rw [if_neg hnot, hquota]
    simp
  · unfold takeDayOff
    rw [if_neg hnot]
  · unfold takeDayOff
    rw [if_neg hnot]

theorem takeDayOff_at_quota_witness :
    canTakeDayOff ⟨3, ["2025-01-02", "2025-01-03", "2025-01-04"]⟩ 739566 = false ∧
    (takeDayOff ⟨3, ["2025-01-02", "2025-01-03", "2025-01-04"]⟩ 739566).1 = true ∧
    (takeDayOff ⟨3, ["2025-01-02", "2025-01-03", "2025-01-04"]⟩ 739566).2.dayOffRecords =
      ["2025-01-02", "2025-01-03", "2025-01-04"] ++ ["2025-01-10"] := by
  have h := takeDayOff_at_quota ⟨3, ["2025-01-02", "2025-01-03", "2025-01-04"]⟩ 739566
    (by decide) (by decide)
  have hf : formatDate 739566 = "2025-01-10" := by decide
  rw [hf] at h
  exact h

/-! ## C7 — take/undo round trip -/

/-- Counterexample to C7 as stated: if today (2025-01-10) is already
recorded, `takeDayOff` is a no-op but `undoDayOff` still removes the
pre-existing record, so the pair does not restore the ledger. -/
theorem takeUndo_roundtrip_counterexample :
    ((undoDayOff (takeDayOff ⟨3, ["2025-01-10"]⟩ 739566).2 739566).2).dayOffRecords = [] ∧
    (⟨3, ["2025-01-10"]⟩ : Settings).dayOffRecords ≠ ([] : List String) := by
  decide

/-- C7 amended: whenever today is not already recorded, `takeDayOff`
followed immediately by `undoDayOff` for the same date restores
`dayOffRecords` exactly. -/
theorem takeUndo_roundtrip (s : Settings) (todayZ : Nat)
    (hnot : formatDate todayZ ∉ s.dayOffRecords) :
    (undoDayOff (takeDayOff s todayZ).2 todayZ).2 = s := by
  unfold takeDayOff
  rw [if_neg hnot]
  unfold undoDayOff
  dsimp only
  rw [if_pos (by simp)]
  have : (s.dayOffRecords ++ [formatDate todayZ]).erase (formatDate todayZ)
      = s.dayOffRecords := by
    rw [List.erase_append_right _ (by simpa using hnot)]
    simp
  simp [this]

theorem takeUndo_roundtrip_witness :
    (undoDayOff (takeDayOff ⟨3, ["2025-01-09"]⟩ 739566).2 739566).2 =
      (⟨3, ["2025-01-09"]⟩ : Settings) :=
  takeUndo_roundtrip ⟨3, ["2025-01-09"]⟩ 739566 (by decide)

/-! ## C9 — deduplication invariant -/

/-- C9: if no date appears twice in `dayOffRecords`, then after any single
`takeDayOff`, `undoDayOff` or `purgeOldDayOffRecords` call still no date
appears twice. -/
theorem dayOffRecords_nodup_preserved (s : Settings) (todayZ : Nat)
    (hnd : s.dayOffRecords.Nodup) :
    (takeDayOff s todayZ).2.dayOffRecords.Nodup ∧
    (undoDayOff s todayZ).2.dayOffRecords.Nodup ∧
    (purgeOldDayOffRecords s todayZ).dayOffRecords.Nodup := by
  refine ⟨?_, ?_, ?_⟩
  · unfold takeDayOff
    by_cases hmem : formatDate todayZ ∈ s.dayOffRecords
    · rw [if_pos hmem]; exact hnd
    · rw [if_neg hmem]
      dsimp only
      simp [List.nodup_append, hnd, hmem]
  · unfold undoDayOff
    by_cases hmem : formatDate todayZ ∈ s.dayOffRecords
    · rw [if_pos hmem]; exact hnd.erase _
    · rw [if_neg hmem]; exact hnd
  · exact hnd.filter _

theorem dayOffRecords_nodup_preserved_witness :
    (takeDayOff ⟨3, ["2025-01-09"]⟩ 739566).2.dayOffRecords.Nodup ∧
    (undoDayOff ⟨3, ["2025-01-09"]⟩ 739566).2.dayOffRecords.Nodup ∧
    (purgeOldDayOffRecords ⟨3, ["2025-01-09"]⟩ 739566).dayOffRecords.Nodup :=
  dayOffRecords_nodup_preserved ⟨3, ["2025-01-09"]⟩ 739566 (by decide)

/-! ## Streak-engine lemmas -/

theorem allDaysOff_iff (records : List String) (lastz n : Nat) :
    allDaysOff records lastz n = true ↔
      ∀ j < n, formatDate (lastz + 1 + j) ∈ records := by
  unfold allDaysOff
  rw [List.all_eq_true]
  constructor
  · intro h j hj
    simpa using h j (List.mem_range.mpr hj)
  · intro h j hj
    simpa using h j (List.mem_range.mp hj)

/-- The streak computation in an all-day-off-bridged gap of more than one
day: incremented by exactly one. -/
theorem newStreak_gap_allDayOff (records : List String) (h : Habit)
    (todayZ lastz : Nat)
    (hne : h.lastCompletedDate ≠ "")
    (hparse : parseDate h.lastCompletedDate = some lastz)
    (hgap : lastz + 1 < todayZ)
    (hall : ∀ i, 0 < i → lastz + i < todayZ → formatDate (lastz + i) ∈ records) :
    newStreak records h todayZ = h.streak + 1 := by
  unfold newStreak
  rw [if_neg hne, hparse]
  dsimp only
  rw [if_neg (by omega : ¬ ((todayZ : Int) - (lastz : Int) = 1))]
  rw [if_pos (by omega : (1 : Int) < (todayZ : Int) - (lastz : Int))]
  have hall' : allDaysOff records lastz (((todayZ : Int) - (lastz : Int) - 1).toNat)
      = true := by
    rw [allDaysOff_iff]
    intro j hj
    have := hall (j + 1) (by omega) (by omega)
    have harg : lastz + (j + 1) = lastz + 1 + j := by omega
    rwa [harg] at this
  rw [if_pos hall']

/-- The streak computation in a gap of more than one day with a non-day-off
intermediate date: reset to `1`. -/
theorem newStreak_gap_broken (records : List String) (h : Habit)
    (todayZ lastz : Nat)
    (hne : h.lastCompletedDate ≠ "")
    (hparse : parseDate h.lastCompletedDate = some lastz)
    (hgap : lastz + 1 < todayZ)
    (hmiss : ∃ i, 0 < i ∧ lastz + i < todayZ ∧ formatDate (lastz + i) ∉ records) :
    newStreak records h todayZ = 1 := by
  unfold newStreak
  rw [if_neg hne, hparse]
  dsimp only
  rw [if_neg (by omega : ¬ ((todayZ : Int) - (lastz : Int) = 1))]
  rw [if_pos (by omega : (1 : Int) < (todayZ : Int) - (lastz : Int))]
  obtain ⟨i, hi0, hilt, hout⟩ := hmiss
  have hfalse : ¬ (allDaysOff records lastz (((todayZ : Int) - (lastz : Int) - 1).toNat)
      = true) := by
    intro hc
    have := (allDaysOff_iff records lastz _).mp hc (i - 1) (by omega)
    have harg : lastz + 1 + (i - 1) = lastz + i := by omega
    rw [harg] at this
    exact hout this
  rw [if_neg hfalse]

/-- The streak computation when the clock moved backwards (or the stored
date string denotes today while differing from it): whole-day gap `≤ 0`,
neither branch fires, streak untouched. -/
theorem newStreak_backward (records : List String) (h : Habit)
    (todayZ lastz : Nat)
    (hne : h.lastCompletedDate ≠ "")
    (hparse : parseDate h.lastCompletedDate = some lastz)
    (hle : todayZ ≤ lastz) :
    newStreak records h todayZ = h.streak := by
  unfold newStreak
  rw [if_neg hne, hparse]
  dsimp only
  rw [if_neg (by omega : ¬ ((todayZ : Int) - (lastz : Int) = 1))]
  rw [if_neg (by omega : ¬ ((1 : Int) < (todayZ : Int) - (lastz : Int)))]

/-! ## C1 — day-off-bridged gap increments by exactly 1 -/

/-- C1: for a habit with a non-empty last-completed date (denoting day
`lastz`) and today strictly more than one day later, if every date strictly
between them is in `dayOffRecords`, `completeHabit` increments the streak by
exactly 1 (not by the gap size) and sets the date to today.  (The dates
strictly between are exactly `lastz + i` for `0 < i` with `lastz + i <
todayZ`; the hypothesis that the stored string differs from today's is the
string form of "today is strictly later".) -/
theorem completeHabit_gap_allDayOff
    (st : AppState) (todayZ : Nat) (rid : String) (idx : Nat) (h : Habit) (lastz : Nat)
    (hhab : getHabit st rid idx = some h)
    (hne : h.lastCompletedDate ≠ "")
    (hnt : h.lastCompletedDate ≠ formatDate todayZ)
    (hparse : parseDate h.lastCompletedDate = some lastz)
    (hgap : lastz + 1 < todayZ)
    (hall : ∀ i, 0 < i → lastz + i < todayZ →
      formatDate (lastz + i) ∈ st.settings.dayOffRecords) :
    ∃ st', completeHabit st todayZ rid idx = .ok st' ∧
      getHabit st' rid idx = some { h with
        streak := h.streak + 1, lastCompletedDate := formatDate todayZ } := by
  obtain ⟨st', hok, hget, -⟩ := completeHabit_ok hhab hnt
  refine ⟨st', hok, ?_⟩
  rw [hget, newStreak_gap_allDayOff st.settings.dayOffRecords h todayZ lastz
    hne hparse hgap hall]

theorem completeHabit_gap_allDayOff_witness :
    ∃ st', completeHabit wState 739566 "r1" 0 = .ok st' ∧
      getHabit st' "r1" 0 = some { wHabit with
        streak := wHabit.streak + 1, lastCompletedDate := formatDate 739566 } :=
  completeHabit_gap_allDayOff wState 739566 "r1" 0 wHabit 739564
    (by decide) (by decide) (by decide) (by decide) (by decide)
    (fun i h1 h2 => by
      have hi : i = 1 := by omega
      subst hi
      decide)

/-! ## C2 — broken gap resets to 1 -/

/-- C2: same setting as C1 but with at least one date strictly between the
last completion and today missing from `dayOffRecords`: the streak resets to
`1` and the date is set to today. -/
theorem completeHabit_gap_broken
    (st : AppState) (todayZ : Nat) (rid : String) (idx : Nat) (h : Habit) (lastz : Nat)
    (hhab : getHabit st rid idx = some h)
    (hne : h.lastCompletedDate ≠ "")
    (hnt : h.lastCompletedDate ≠ formatDate todayZ)
    (hparse : parseDate h.lastCompletedDate = some lastz)
    (hgap : lastz + 1 < todayZ)
    (hmiss : ∃ i, 0 < i ∧ lastz + i < todayZ ∧
      formatDate (lastz + i) ∉ st.settings.dayOffRecords) :
    ∃ st', completeHabit st todayZ rid idx = .ok st' ∧
      getHabit st' rid idx = some { h with
        streak := 1, lastCompletedDate := formatDate todayZ } := by
  obtain ⟨st', hok, hget, -⟩ := completeHabit_ok hhab hnt
  refine ⟨st', hok, ?_⟩
  rw [hget, newStreak_gap_broken st.settings.dayOffRecords h todayZ lastz
    hne hparse hgap hmiss]

theorem completeHabit_gap_broken_witness :
    ∃ st', completeHabit wStateBare 739566 "r1" 0 = .ok st' ∧
      getHabit st' "r1" 0 = some { wHabit with
        streak := 1, lastCompletedDate := formatDate 739566 } :=
  completeHabit_gap_broken wStateBare 739566 "r1" 0 wHabit 739564
    (by decide) (by decide) (by decide) (by decide) (by decide)
    ⟨1, by omega, by omega, by decide⟩

/-! ## C4 — non-monotonic clock -/

/-- Counterexample to C4 as stated: habit last completed 2025-01-10 with
streak 5, completed again on 2025-01-09 (clock moved backward).  The claim
says the streak resets to 1; the code leaves it at 5 (neither `diffDays`
branch fires) while still setting `lastCompletedDate` to today. -/
theorem completeHabit_backward_counterexample :
    observeHabit (completeHabit wStateAhead 739565 "r1" 0) "r1" 0 =
      some (some { title := "Water", time := "07:00", streak := 5,
                   lastCompletedDate := "2025-01-09" }) ∧
    observeHabit (completeHabit wStateAhead 739565 "r1" 0) "r1" 0 ≠
      some (some { title := "Water", time := "07:00", streak := 1,
                   lastCompletedDate := "2025-01-09" }) := by
  decide

/-- C4 amended: with a whole-day gap `≤ 0` (today on or before the stored
date, the strings differing), `completeHabit` leaves the streak unchanged
(it does not reset it to 1) and sets `lastCompletedDate` to today. -/
theorem completeHabit_backward
    (st : AppState) (todayZ : Nat) (rid : String) (idx : Nat) (h : Habit) (lastz : Nat)
    (hhab : getHabit st rid idx = some h)
    (hne : h.lastCompletedDate ≠ "")
    (hnt : h.lastCompletedDate ≠ formatDate todayZ)
    (hparse : parseDate h.lastCompletedDate = some lastz)
    (hle : todayZ ≤ lastz) :
    ∃ st', completeHabit st todayZ rid idx = .ok st' ∧
      getHabit st' rid idx = some { h with
        lastCompletedDate := formatDate todayZ } := by
  obtain ⟨st', hok, hget, -⟩ := completeHabit_ok hhab hnt
  refine ⟨st', hok, ?_⟩
  rw [hget, newStreak_backward st.settings.dayOffRecords h todayZ lastz hne hparse hle]

theorem completeHabit_backward_witness :
    ∃ st', completeHabit wStateAhead 739565 "r1" 0 = .ok st' ∧
      getHabit st' "r1" 0 = some { wHabitAhead with
        lastCompletedDate := formatDate 739565 } :=
  completeHabit_backward wStateAhead 739565 "r1" 0 wHabitAhead 739566
    (by decide) (by decide) (by decide) (by decide) (by omega)

/-! ## C5 — idempotence of same-day completion -/

/-- C5: completing the same habit a second time on the same date is
idempotent — the second call returns the first call's entire resulting
store (streak, `lastCompletedDate`, and completion log included) unchanged. -/
theorem completeHabit_idempotent
    (st : AppState) (todayZ : Nat) (rid : String) (idx : Nat) (h : Habit)
    (hhab : getHabit st rid idx = some h) :
    ∃ st', completeHabit st todayZ rid idx = .ok st' ∧
      completeHabit st' todayZ rid idx = .ok st' := by
  by_cases heq : h.lastCompletedDate = formatDate todayZ
  · exact ⟨st, completeHabit_already hhab heq, completeHabit_already hhab heq⟩
  · obtain ⟨st', hok, hget, -⟩ := completeHabit_ok hhab heq
    exact ⟨st', hok, completeHabit_already hget rfl⟩

theorem completeHabit_idempotent_witness :
    ∃ st', completeHabit wState 739566 "r1" 0 = .ok st' ∧
      completeHabit st' 739566 "r1" 0 = .ok st' :=
  completeHabit_idempotent wState 739566 "r1" 0 wHabit (by decide)

/-! ## C6 — not-found handling -/

/-- Counterexample to C6 as stated: with routine `"r1"` present but habit
index 1 out of range, `completeHabit` does not return normally — it raises
(reading `lastCompletedDate` of `undefined`), modelled as `Except.error`
carrying the untouched store. -/
theorem notFound_counterexample :
    completeHabit wState 739566 "r1" 1 = .error wState := rfl

/-- C6 amended: for an unknown routine id both operations are no-ops that
return without raising and leave the store untouched; but for a present
routine with an out-of-range habit index, `completeHabit` raises with the
store untouched, and `uncompleteHabit` first persists the completion-log
removal and then raises if `sameDay` is true (returning normally, with only
that removal, if `sameDay` is false). -/
theorem notFound_behavior (st : AppState) (todayZ : Nat) (rid : String) (idx : Nat)
    (sameDay : Bool) :
    (st.routines.find? (fun r => r.id = rid) = none →
      completeHabit st todayZ rid idx = .ok st ∧
      uncompleteHabit st todayZ rid idx sameDay = .ok st) ∧
    (∀ r, st.routines.find? (fun r => r.id = rid) = some r → r.habits.length ≤ idx →
      completeHabit st todayZ rid idx = .error st ∧
      (sameDay = true → uncompleteHabit st todayZ rid idx sameDay = .error
        { st with completions :=
            removeCompletionLog st.completions (formatDate todayZ) rid idx }) ∧
      (sameDay = false → uncompleteHabit st todayZ rid idx sameDay = .ok
        { st with completions :=
            removeCompletionLog st.completions (formatDate todayZ) rid idx })) := by
  constructor
  · intro hnone
    constructor
    · unfold completeHabit
      rw [hnone]
    · unfold uncompleteHabit
      rw [hnone]
  · intro r hfind hlen
    have hnone : r.habits[idx]? = none := List.getElem?_eq_none_iff.mpr hlen
    refine ⟨?_, ?_, ?_⟩
    · unfold completeHabit
      rw [hfind]
      dsimp only
      rw [hnone]
    · intro hsd
      unfold uncompleteHabit
      rw [hfind]
      dsimp only
      rw [hnone]
      dsimp only
      rw [hsd]
      rfl
    · intro hsd
      unfold uncompleteHabit
      rw [hfind]
      dsimp only
      rw [hnone]
      dsimp only
      rw [hsd]
      rfl

theorem notFound_behavior_witness :
    (completeHabit wState 739566 "zzz" 0 = .ok wState ∧
     uncompleteHabit wState 739566 "zzz" 0 true = .ok wState) ∧
    completeHabit wState 739566 "r1" 1 = .error wState :=
  ⟨(notFound_behavior wState 739566 "zzz" 0 true).1 (by decide),
   ((notFound_behavior wState 739566 "r1" 1 true).2 wRoutine (by decide) (by decide)).1⟩

/-! ## C8 — uncomplete reversal -/

/-- C8: with `sameDayOnly` true and the habit completed today,
`uncompleteHabit` clears the date to `""` and decrements the streak by 1
floored at 0; in every other case the habit's streak and date are left
unchanged (only the log entry is removed).  Settings are never touched. -/
theorem uncompleteHabit_spec (st : AppState) (todayZ : Nat) (rid : String) (idx : Nat)
    (sameDay : Bool) (h : Habit)
    (hhab : getHabit st rid idx = some h) :
    ∃ st', uncompleteHabit st todayZ rid idx sameDay = .ok st' ∧
      getHabit st' rid idx = some (
        if sameDay = true ∧ h.lastCompletedDate = formatDate todayZ then revertHabit h
        else h) ∧
      st'.settings = st.settings := by
  obtain ⟨r, hfind, hget, hlen⟩ := getHabit_some hhab
  by_cases hcond : sameDay = true ∧ h.lastCompletedDate = formatDate todayZ
  · have hstep : uncompleteHabit st todayZ rid idx sameDay = .ok
        { routines := updateFirstRoutine st.routines rid
            (fun r => { r with habits := r.habits.set idx (revertHabit h) }),
          settings := st.settings,
          completions :=
            removeCompletionLog st.completions (formatDate todayZ) rid idx } := by
      unfold uncompleteHabit
      rw [hfind]
      dsimp only
      rw [hget]
      dsimp only
      rw [if_pos hcond]
    refine ⟨_, hstep, ?_, rfl⟩
    rw [if_pos hcond]
    unfold getHabit
    rw [find?_updateFirstRoutine st.routines rid
      (fun r => { r with habits := r.habits.set idx (revertHabit h) })
      (fun _ => rfl) hfind]
    dsimp only
    exact List.getElem?_set_self hlen
  · have hstep : uncompleteHabit st todayZ rid idx sameDay = .ok
        { st with completions :=
            removeCompletionLog st.completions (formatDate todayZ) rid idx } := by
      unfold uncompleteHabit
      rw [hfind]
      dsimp only
      rw [hget]
      dsimp only
      rw [if_neg hcond]
    refine ⟨_, hstep, ?_, rfl⟩
    rw [if_neg hcond]
    unfold getHabit
    dsimp only
    rw [hfind]
    exact hget

theorem uncompleteHabit_spec_witness :
    ∃ st', uncompleteHabit wStateAhead 739566 "r1" 0 true = .ok st' ∧
      getHabit st' "r1" 0 = some (
        if (true : Bool) = true ∧ wHabitAhead.lastCompletedDate = formatDate 739566 then
          revertHabit wHabitAhead
        else wHabitAhead) ∧
      st'.settings = wStateAhead.settings :=
  uncompleteHabit_spec wStateAhead 739566 "r1" 0 true wHabitAhead (by decide)

/-! ## C10 — the engine never consults the ledger for today itself -/

/-- The streak computation only queries the ledger at the dates strictly
between the previous completion and today; ledgers agreeing away from
today's date yield the same streak. -/
theorem newStreak_ledger_indep (r₁ r₂ : List String) (h : Habit) (todayZ : Nat)
    (hdiff : ∀ s, s ≠ formatDate todayZ → (s ∈ r₁ ↔ s ∈ r₂)) :
    newStreak r₁ h todayZ = newStreak r₂ h todayZ := by
  unfold newStreak
  by_cases hne : h.lastCompletedDate = ""
  · rw [if_pos hne, if_pos hne]
  · rw [if_neg hne, if_neg hne]
    rcases hp : parseDate h.lastCompletedDate with _ | lastz
    · rfl
    · dsimp only
      by_cases h1 : (todayZ : Int) - (lastz : Int) = 1
      · rw [if_pos h1, if_pos h1]
      · rw [if_neg h1, if_neg h1]
        by_cases h2 : (1 : Int) < (todayZ : Int) - (lastz : Int)
        · rw [if_pos h2, if_pos h2]
          have hAll : allDaysOff r₁ lastz (((todayZ : Int) - (lastz : Int) - 1).toNat) =
              allDaysOff r₂ lastz (((todayZ : Int) - (lastz : Int) - 1).toNat) := by
            rw [Bool.eq_iff_iff, allDaysOff_iff, allDaysOff_iff]
            constructor
            · intro ha j hj
              refine (hdiff _ ?_).mp (ha j hj)
              intro hceq
              have := formatDate_inj hceq
              omega
            · intro ha j hj
              refine (hdiff _ ?_).mpr (ha j hj)
              intro hceq
              have := formatDate_inj hceq
              omega
          rw [hAll]
        · rw [if_neg h2, if_neg h2]

/-- C10: for the same routines/log and two ledgers differing only in
whether today's own date is recorded, `completeHabit` produces the same
streak and the same `lastCompletedDate`. -/
theorem completeHabit_ledger_noninterference
    (routines : List Routine) (completions : String → List Completion)
    (set₁ set₂ : Settings) (todayZ : Nat) (rid : String) (idx : Nat) (h : Habit)
    (hdiff : ∀ s, s ≠ formatDate todayZ →
      (s ∈ set₁.dayOffRecords ↔ s ∈ set₂.dayOffRecords))
    (hhab : getHabit ⟨routines, set₁, completions⟩ rid idx = some h) :
    ∃ st₁ st₂ h₁ h₂,
      completeHabit ⟨routines, set₁, completions⟩ todayZ rid idx = .ok st₁ ∧
      completeHabit ⟨routines, set₂, completions⟩ todayZ rid idx = .ok st₂ ∧
      getHabit st₁ rid idx = some h₁ ∧ getHabit st₂ rid idx = some h₂ ∧
      h₁.streak = h₂.streak ∧ h₁.lastCompletedDate = h₂.lastCompletedDate := by
  have hhab₂ : getHabit ⟨routines, set₂, completions⟩ rid idx = some h := hhab
  by_cases heq : h.lastCompletedDate = formatDate todayZ
  · exact ⟨_, _, h, h, completeHabit_already hhab heq, completeHabit_already hhab₂ heq,
      hhab, hhab₂, rfl, rfl⟩
  · obtain ⟨st₁, hok₁, hget₁, -⟩ := completeHabit_ok hhab heq
    obtain ⟨st₂, hok₂, hget₂, -⟩ := completeHabit_ok hhab₂ heq
    refine ⟨st₁, st₂, _, _, hok₁, hok₂, hget₁, hget₂, ?_, rfl⟩
    dsimp only
    exact newStreak_ledger_indep set₁.dayOffRecords set₂.dayOffRecords h todayZ hdiff

theorem completeHabit_ledger_noninterference_witness :
    ∃ st₁ st₂ h₁ h₂,
      completeHabit ⟨[wRoutine], ⟨3, ["2025-01-09"]⟩, fun _ => []⟩ 739566 "r1" 0
        = .ok st₁ ∧
      completeHabit ⟨[wRoutine], ⟨3, ["2025-01-09", "2025-01-10"]⟩, fun _ => []⟩
        739566 "r1" 0 = .ok st₂ ∧
      getHabit st₁ "r1" 0 = some h₁ ∧ getHabit st₂ "r1" 0 = some h₂ ∧
      h₁.streak = h₂.streak ∧ h₁.lastCompletedDate = h₂.lastCompletedDate :=
  completeHabit_ledger_noninterference [wRoutine] (fun _ => [])
    ⟨3, ["2025-01-09"]⟩ ⟨3, ["2025-01-09", "2025-01-10"]⟩ 739566 "r1" 0 wHabit
    (by
      intro s hs
      rw [(by decide : formatDate 739566 = "2025-01-10")] at hs
      simp [hs])
    (by decide)

end RoutineTracker
